import Mathlib

/-!
Shallow embedding of the mojocn/wasmecdict repository (file ecdict.go).

The Go file parses two embedded assets into two maps and answers lookups:

* `parseDict` reads CSV records into `map[string]DictItem`, inserting each
  valid record under its trimmed word and under the lowercase of that word;
* `parseLemma` reads lemma rule lines into `map[string]string` mapping an
  inflected form to its canonical word;
* `loadDict` (re)builds whichever of the two singleton maps is empty;
* `LookUp` trims the query, substitutes through the lemma map when possible
  and looks the result up in the dictionary map.

Modelling choices:

* the CSV reader and the line scanner are external collaborators, so
  `parseDict` takes the already-decoded list of records
  (`List (List String)`) and `parseLemma` the list of scanned lines;
* a Go `map` is modelled as an association list where insertion prepends
  and lookup takes the most recent binding, which reproduces the
  insert-overwrites semantics of Go maps;
* the Go string helpers are modelled directly over the character list of a
  string, with structural recursion so that every definition evaluates:
  `strings.TrimSpace` drops whitespace from both ends, `strings.ToLower`
  lowercases characterwise (the per-rune simple lowercase mapping,
  restricted to the basic latin range), `strings.Split` scans left to right
  for the separator, `strings.HasPrefix` tests a literal character sequence
  at the front, and `strings.ReplaceAll` with the fixed arguments of
  `removeBr` rewrites every escaped-newline pair;
* the `nil` / pointer result of `LookUp` is modelled as `Option`;
  for the one claim about mutation through the returned pointer the escape
  of the local copy `dictItem` is made explicit with a small heap model.
-/

namespace Wasmecdict

/-- The Go struct `DictItem`: one dictionary record, thirteen string fields. -/
structure DictItem where
  Word        : String
  Phonetic    : String
  Definition  : String
  Translation : String
  Pos         : String
  Collins     : String
  Oxford      : String
  Tag         : String
  Bnc         : String
  Frq         : String
  Exchange    : String
  Detail      : String
  Audio       : String
deriving DecidableEq, Repr

/-- Go map insertion `m[k] = v`, modelled by prepending the binding. -/
def mapInsert (m : List (String × α)) (k : String) (v : α) : List (String × α) :=
  (k, v) :: m

/-- Go map read `v, ok := m[k]`: the most recent binding for `k`, if any. -/
def mapFind (m : List (String × α)) (k : String) : Option α :=
  match m with
  | [] => none
  | (k₁, v) :: rest => if k = k₁ then some v else mapFind rest k

/-- Models Go `strings.TrimSpace`: drop leading and trailing whitespace. -/
def trimSpace (s : String) : String :=
  String.mk (((s.data.dropWhile Char.isWhitespace).reverse.dropWhile
    Char.isWhitespace).reverse)

/-- Models Go `strings.ToLower`: lowercase every character of the string. -/
def toLowerStr (s : String) : String := String.mk (s.data.map Char.toLower)

/-- Models Go `strings.HasPrefix`: does `s` start with the literal `pre`? -/
def hasPrefixGo (s pre : String) : Bool :=
  pre.data.isPrefixOf s.data

/-- Scanner behind `splitOnGo`: walk the characters left to right, emitting
the accumulated piece whenever the separator occurs at the current position
and skipping over it (Go `strings.Split` with a non-empty separator). The
`fuel` argument only drives the recursion; it starts at the length of the
input, which step counting shows is never exhausted. -/
def splitOnGoAux (sep : List Char) : Nat → List Char → List Char → List (List Char)
  | _, [], acc => [acc]
  | 0, l, acc => [acc ++ l]
  | fuel + 1, c :: rest, acc =>
    if sep.isPrefixOf (c :: rest) then
      acc :: splitOnGoAux sep fuel ((c :: rest).drop sep.length) []
    else
      splitOnGoAux sep fuel rest (acc ++ [c])

/-- Models Go `strings.Split` for a non-empty separator. -/
def splitOnGo (s sep : String) : List String :=
  (splitOnGoAux sep.data s.data.length s.data []).map String.mk

/-- Character-list worker for `removeBr`: rewrite every (non-overlapping,
leftmost-first) backslash-n pair to a newline character, as Go
`strings.ReplaceAll(w, escaped-n, newline)` does for this fixed pattern. -/
def removeBrAux : List Char → List Char
  | [] => []
  | '\\' :: 'n' :: rest => '\n' :: removeBrAux rest
  | c :: rest => c :: removeBrAux rest

/-- `removeBr` from ecdict.go: replace every escaped-newline sequence
(backslash followed by the letter n) with a real newline character. -/
def removeBr (w : String) : String := String.mk (removeBrAux w.data)

/-- The `DictItem` literal built in `parseDict` from one 13-field record
(ecdict.go lines 91 to 105). Because the field count 13 has already been
checked, `getD i` with a default coincides with Go record indexing. -/
def recordItem (record : List String) : DictItem where
  Word        := trimSpace (record.getD 0 "")
  Phonetic    := record.getD 1 ""
  Definition  := removeBr (record.getD 2 "")
  Translation := removeBr (record.getD 3 "")
  Pos         := record.getD 4 ""
  Collins     := record.getD 5 ""
  Oxford      := record.getD 6 ""
  Tag         := record.getD 7 ""
  Bnc         := record.getD 8 ""
  Frq         := record.getD 9 ""
  Exchange    := record.getD 10 ""
  Detail      := record.getD 11 ""
  Audio       := record.getD 12 ""

/-- The body of the read loop of `parseDict` for one decoded record:
skip on wrong field count, skip on empty trimmed word, skip the CSV header
row, and otherwise insert the record under its exact trimmed word and under
the lowercase of that word. -/
def parseDictStep (dictMap : List (String × DictItem)) (record : List String) :
    List (String × DictItem) :=
  if 13 ≠ record.length then dictMap
  else if trimSpace (record.getD 0 "") = "" then dictMap
  else if (recordItem record).Word = "word" ∧ (recordItem record).Phonetic = "phonetic" then
    dictMap
  else
    mapInsert
      (mapInsert dictMap (trimSpace (record.getD 0 "")) (recordItem record))
      (toLowerStr (trimSpace (record.getD 0 ""))) (recordItem record)

/-- `parseDict` from ecdict.go over the decoded records of the CSV asset. -/
def parseDict (records : List (List String)) : List (String × DictItem) :=
  records.foldl parseDictStep []

/-- The two parts of a lemma rule line, after trimming, split on the
literal separator (the `parts` local of `parseLemmaLine`). -/
def lineParts (rawLine : String) : List String :=
  splitOnGo (trimSpace rawLine) " -> "

/-- The canonical word of a lemma rule line: the first slash token of the
left part, trimmed (the `originalWord` local of `parseLemmaLine`). -/
def lineOriginalWord (rawLine : String) : String :=
  trimSpace ((splitOnGo ((lineParts rawLine).getD 0 "") "/").getD 0 "")

/-- The comma tokens of the right part of a lemma rule line (the `lParts`
local of `parseLemmaLine`). -/
def lineLemmaTokens (rawLine : String) : List String :=
  splitOnGo ((lineParts rawLine).getD 1 "") ","

/-- Body of the inner loop of `parseLemma`: trim one comma token and,
unless it is empty, map it to the canonical word of its line. -/
def lemmaTokenStep (originalWord : String) (m : List (String × String))
    (tok : String) : List (String × String) :=
  if trimSpace tok = "" then m else mapInsert m (trimSpace tok) originalWord

/-- The body of the scan loop of `parseLemma` for one scanned line:
trim, skip comments, skip lines that do not split into exactly two parts on
the separator, take the first slash token of the left part (trimmed) as the
canonical word, skip if it is empty, and map every trimmed non-empty comma
token of the right part to the canonical word. -/
def parseLemmaLine (lemmaMap : List (String × String)) (rawLine : String) :
    List (String × String) :=
  if hasPrefixGo (trimSpace rawLine) ";" then lemmaMap
  else if (lineParts rawLine).length ≠ 2 then lemmaMap
  else if lineOriginalWord rawLine = "" then lemmaMap
  else (lineLemmaTokens rawLine).foldl (lemmaTokenStep (lineOriginalWord rawLine)) lemmaMap

/-- `parseLemma` from ecdict.go over the scanned lines of the lemma asset. -/
def parseLemma (lines : List String) : List (String × String) :=
  lines.foldl parseLemmaLine []

/-- The two embedded assets, already decoded into records and lines. -/
structure Assets where
  ecdictRecords : List (List String)
  lemmaLines    : List String

/-- The mutable package state: the two singleton maps. -/
structure ProcState where
  dictMapSingleton  : List (String × DictItem)
  lemmaMapSingleton : List (String × String)
deriving DecidableEq

/-- `loadDict` from ecdict.go: rebuild whichever singleton map is empty. -/
def loadDict (a : Assets) (s : ProcState) : ProcState where
  dictMapSingleton :=
    if s.dictMapSingleton.isEmpty then parseDict a.ecdictRecords
    else s.dictMapSingleton
  lemmaMapSingleton :=
    if s.lemmaMapSingleton.isEmpty then parseLemma a.lemmaLines
    else s.lemmaMapSingleton

/-- `LookUp` from ecdict.go: load, trim the query, substitute through the
lemma map when a binding exists, then look the resulting word up in the
dictionary map. Returns the updated package state together with the
optional result (`none` models the `nil` pointer). -/
def LookUp (a : Assets) (s : ProcState) (word : String) :
    ProcState × Option DictItem :=
  let s := loadDict a s
  let word := trimSpace word
  let baseWord :=
    match mapFind s.lemmaMapSingleton word with
    | some b => b
    | none => word
  (s, mapFind s.dictMapSingleton baseWord)

/-- The records that survive all three skip tests of the `parseDict` loop:
exactly 13 fields, a non-empty trimmed word, and not the CSV header row. -/
def keptRecord (record : List String) : Prop :=
  record.length = 13 ∧ trimSpace (record.getD 0 "") ≠ "" ∧
    ¬((recordItem record).Word = "word" ∧ (recordItem record).Phonetic = "phonetic")

instance (record : List String) : Decidable (keptRecord record) := by
  unfold keptRecord; infer_instance

/-- The lookup algorithm as the specification words it: trim the query once,
substitute the trimmed word through `lemmaToBase` when it is a key there,
and look the resulting word up, as-is, in `byWord`. Written from the
specification text, to be compared with `LookUp` from the source. -/
def lookUpSpec (lemmaToBase : List (String × String))
    (byWord : List (String × DictItem)) (w : String) : Option DictItem :=
  let trimmed := trimSpace w
  let base :=
    match mapFind lemmaToBase trimmed with
    | some b => b
    | none => trimmed
  mapFind byWord base

/-- A lemma rule line that `parseLemmaLine` does not skip: not a comment,
exactly two separator parts, non-empty canonical word. -/
def goodLine (rawLine : String) : Prop :=
  hasPrefixGo (trimSpace rawLine) ";" = false ∧
    (lineParts rawLine).length = 2 ∧ lineOriginalWord rawLine ≠ ""

instance (rawLine : String) : Decidable (goodLine rawLine) := by
  unfold goodLine; infer_instance

/-- A heap of allocated `DictItem` cells, for making the Go pointer
returned by `LookUp` explicit: a pointer is an index into these cells. -/
structure Heap where
  cells : List DictItem
deriving DecidableEq

/-- Allocate a fresh cell holding `v`; returns the new heap and the index
of the fresh cell. -/
def Heap.alloc (h : Heap) (v : DictItem) : Heap × Nat :=
  (⟨h.cells ++ [v]⟩, h.cells.length)

/-- Overwrite the cell at index `p` (mutation through a pointer). -/
def Heap.write (h : Heap) (p : Nat) (v : DictItem) : Heap :=
  ⟨h.cells.set p v⟩

/-- Dereference the pointer `p`. -/
def Heap.read (h : Heap) (p : Nat) : Option DictItem :=
  h.cells[p]?

/-- The `baseWord` computation of `LookUp`: the trimmed query word after
the lemma-map substitution, the trimmed word itself when no binding exists. -/
def resolveWord (s : ProcState) (word : String) : String :=
  match mapFind s.lemmaMapSingleton (trimSpace word) with
  | some b => b
  | none => trimSpace word

/-- `LookUp` with the Go value semantics of its final lines made explicit:
the read `dictItem, ok := dictMapSingleton[baseWord]` copies the map value
into the local variable `dictItem`, and `return ampersand-dictItem` returns
a pointer to that escaped local, here a freshly allocated heap cell holding
the copy. The map itself stores values, not cell references. -/
def lookUpRef (a : Assets) (s : ProcState) (h : Heap) (word : String) :
    ProcState × Heap × Option Nat :=
  match mapFind (loadDict a s).dictMapSingleton (resolveWord (loadDict a s) word) with
  | none => (loadDict a s, h, none)
  | some dictItem =>
    (loadDict a s, (h.alloc dictItem).1, some (h.alloc dictItem).2)

/-- Closure of a dictionary map under lowercasing of its keys. -/
def lowerClosed (m : List (String × DictItem)) : Prop :=
  ∀ k, (mapFind m k).isSome → (mapFind m (toLowerStr k)).isSome

/-- The output guarantee of `parseLemma`: bound keys and their values are
never the empty string. -/
def lemmaInv (m : List (String × String)) : Prop :=
  ∀ k v, mapFind m k = some v → k ≠ "" ∧ v ≠ ""

/-! ### Concrete data used by the witness theorems -/

def rowCat : List String :=
  ["cat", "kaet", "a small animal", "mao", "n", "3", "1", "zk", "300", "400",
   "s:cats", "", "cat.mp3"]

def rowDog : List String :=
  ["dog", "dg", "a loyal\\nanimal", "gou", "n", "3", "1", "zk", "500", "600",
   "s:dogs", "", "dog.mp3"]

def rowCatUpper : List String :=
  ["CAT", "kaet2", "computer aided test", "ceshi", "n", "", "", "", "", "",
   "", "", ""]

def rowCatMixed : List String :=
  ["Cat", "kaet3", "the cat tool", "mingling", "n", "", "", "", "", "",
   "", "", ""]

def rowShort : List String := ["bad", "row"]

def rowHeader : List String :=
  ["word", "phonetic", "definition", "translation", "pos", "collins",
   "oxford", "tag", "bnc", "frq", "exchange", "detail", "audio"]

/-- Assets for the witnesses: the word cat is both a dictionary key and a
lemma key (the rule maps cat and cats back to dog). -/
def assetsMain : Assets :=
  ⟨[rowCat, rowDog], ["dog -> cat,cats"]⟩

/-- The package state at program start: both singleton maps empty. -/
def procStart : ProcState := ⟨[], []⟩

/-! ### Helper lemmas -/

theorem mapFind_insert (m : List (String × α)) (k : String) (v : α) (q : String) :
    mapFind (mapInsert m k v) q = if q = k then some v else mapFind m q := rfl

theorem charToLower_fixed (n : Nat) (h1 : 65 ≤ n) (h2 : n ≤ 90) :
    Char.toLower (Char.ofNat (n + 32)) = Char.ofNat (n + 32) := by
  interval_cases n <;> decide

theorem charToLower_toLower (c : Char) :
    Char.toLower (Char.toLower c) = Char.toLower c := by
  by_cases h : c.toNat ≥ 65 ∧ c.toNat ≤ 90
  · have h1 : Char.toLower c = Char.ofNat (c.toNat + 32) := by
      unfold Char.toLower
      rw [if_pos h]
    rw [h1]
    exact charToLower_fixed c.toNat h.1 h.2
  · have h1 : Char.toLower c = c := by
      unfold Char.toLower
      rw [if_neg h]
    rw [h1, h1]

theorem toLowerStr_idem (s : String) :
    toLowerStr (toLowerStr s) = toLowerStr s := by
  unfold toLowerStr
  refine congrArg String.mk ?h
  show (s.data.map Char.toLower).map Char.toLower = s.data.map Char.toLower
  rw [List.map_map]
  exact List.map_congr_left fun c _ => charToLower_toLower c

theorem parseDictStep_not_kept (m : List (String × DictItem)) (record : List String)
    (h : ¬keptRecord record) : parseDictStep m record = m := by
  unfold parseDictStep
  split_ifs with h1 h2 h3
  · rfl
  · rfl
  · rfl
  · exact absurd ⟨by omega, h2, h3⟩ h

theorem parseDictStep_kept (m : List (String × DictItem)) (record : List String)
    (h : keptRecord record) :
    parseDictStep m record =
      mapInsert (mapInsert m (trimSpace (record.getD 0 "")) (recordItem record))
        (toLowerStr (trimSpace (record.getD 0 ""))) (recordItem record) := by
  obtain ⟨h1, h2, h3⟩ := h
  unfold parseDictStep
  rw [if_neg (by omega), if_neg h2, if_neg h3]

theorem mapFind_isSome_insert (m : List (String × α)) (k : String) (v : α)
    (q : String) (h : (mapFind m q).isSome) :
    (mapFind (mapInsert m k v) q).isSome := by
  rw [mapFind_insert]
  split
  · rfl
  · exact h

theorem lowerClosed_nil : lowerClosed ([] : List (String × DictItem)) := by
  intro k h
  simp [mapFind] at h

theorem lowerClosed_step (m : List (String × DictItem)) (record : List String)
    (h : lowerClosed m) : lowerClosed (parseDictStep m record) := by
  by_cases hk : keptRecord record
  · rw [parseDictStep_kept m record hk]
    intro k hfind
    simp only [mapFind_insert] at hfind ⊢
    by_cases e1 : k = toLowerStr (trimSpace (record.getD 0 ""))
    · subst e1
      rw [toLowerStr_idem]
      simp
    · rw [if_neg e1] at hfind
      by_cases e2 : k = trimSpace (record.getD 0 "")
      · subst e2
        simp
      · rw [if_neg e2] at hfind
        have h2 := h k hfind
        by_cases e3 : toLowerStr k = toLowerStr (trimSpace (record.getD 0 ""))
        · simp [e3]
        · rw [if_neg e3]
          by_cases e4 : toLowerStr k = trimSpace (record.getD 0 "")
          · simp [e4]
          · rw [if_neg e4]
            exact h2
  · rw [parseDictStep_not_kept m record hk]
    exact h

theorem lowerClosed_foldl (rs : List (List String)) :
    ∀ m, lowerClosed m → lowerClosed (rs.foldl parseDictStep m) := by
  induction rs with
  | nil => exact fun m h => h
  | cons r rest ih => exact fun m h => ih _ (lowerClosed_step m r h)

theorem mapFind_foldl_tokenStep_of_find (o : String) (toks : List String)
    (m : List (String × String)) (k : String) (hk : mapFind m k = some o) :
    mapFind (toks.foldl (lemmaTokenStep o) m) k = some o := by
  induction toks generalizing m with
  | nil => exact hk
  | cons t rest ih =>
    refine ih _ ?h
    unfold lemmaTokenStep
    split
    · exact hk
    · rw [mapFind_insert]
      split
      · rfl
      · exact hk

theorem mapFind_foldl_tokenStep_mem (o : String) (toks : List String)
    (m : List (String × String)) (k : String) (hne : k ≠ "")
    (hmem : ∃ t ∈ toks, trimSpace t = k) :
    mapFind (toks.foldl (lemmaTokenStep o) m) k = some o := by
  induction toks generalizing m with
  | nil =>
    obtain ⟨t, ht, _⟩ := hmem
    exact absurd ht (List.not_mem_nil t)
  | cons t rest ih =>
    by_cases hr : ∃ u ∈ rest, trimSpace u = k
    · exact ih _ hr
    · obtain ⟨u, hu, htrim⟩ := hmem
      rcases List.mem_cons.mp hu with rfl | hmem2
      · refine mapFind_foldl_tokenStep_of_find o rest _ k ?h
        unfold lemmaTokenStep
        rw [if_neg (by rw [htrim]; exact hne), htrim, mapFind_insert, if_pos rfl]
      · exact absurd ⟨u, hmem2, htrim⟩ hr

theorem lemmaInv_tokenStep (o : String) (ho : o ≠ "") (m : List (String × String))
    (t : String) (h : lemmaInv m) : lemmaInv (lemmaTokenStep o m t) := by
  intro k v hk
  unfold lemmaTokenStep at hk
  by_cases he : trimSpace t = ""
  · rw [if_pos he] at hk
    exact h k v hk
  · rw [if_neg he, mapFind_insert] at hk
    by_cases hkt : k = trimSpace t
    · rw [if_pos hkt] at hk
      injection hk with hv
      subst hv
      exact ⟨by rw [hkt]; exact he, ho⟩
    · rw [if_neg hkt] at hk
      exact h k v hk

theorem lemmaInv_foldl_tokens (o : String) (ho : o ≠ "") (toks : List String) :
    ∀ m, lemmaInv m → lemmaInv (toks.foldl (lemmaTokenStep o) m) := by
  induction toks with
  | nil => exact fun m h => h
  | cons t rest ih => exact fun m h => ih _ (lemmaInv_tokenStep o ho m t h)

theorem parseLemmaLine_good (m : List (String × String)) (line : String)
    (h : goodLine line) :
    parseLemmaLine m line =
      (lineLemmaTokens line).foldl (lemmaTokenStep (lineOriginalWord line)) m := by
  obtain ⟨h1, h2, h3⟩ := h
  unfold parseLemmaLine
  rw [h1, if_neg (by simp), if_neg (by omega), if_neg h3]

theorem lemmaInv_line (m : List (String × String)) (line : String)
    (h : lemmaInv m) : lemmaInv (parseLemmaLine m line) := by
  unfold parseLemmaLine
  split_ifs with h1 h2 h3
  · exact h
  · exact h
  · exact h
  · exact lemmaInv_foldl_tokens (lineOriginalWord line) h3 (lineLemmaTokens line) m h

theorem lemmaInv_foldl_lines (lines : List String) :
    ∀ m, lemmaInv m → lemmaInv (lines.foldl parseLemmaLine m) := by
  induction lines with
  | nil => exact fun m h => h
  | cons line rest ih => exact fun m h => ih _ (lemmaInv_line m line h)

theorem lemmaInv_nil : lemmaInv ([] : List (String × String)) := by
  intro k v hk
  simp [mapFind] at hk

theorem loadDict_loadDict (a : Assets) (s : ProcState) :
    loadDict a (loadDict a s) = loadDict a s := by
  unfold loadDict
  simp only [ProcState.mk.injEq]
  constructor
  · by_cases hd : s.dictMapSingleton.isEmpty <;> simp [hd]
  · by_cases hl : s.lemmaMapSingleton.isEmpty <;> simp [hl]

theorem loadDict_of_nonempty (a : Assets) (s : ProcState)
    (hd : ¬s.dictMapSingleton.isEmpty) (hl : ¬s.lemmaMapSingleton.isEmpty) :
    loadDict a s = s := by
  unfold loadDict
  simp only [Bool.not_eq_true] at hd hl
  simp only [hd, hl, Bool.false_eq_true, if_false]

theorem lookUp_unfold (a : Assets) (s : ProcState) (w : String) :
    LookUp a s w =
      (loadDict a s,
        lookUpSpec (loadDict a s).lemmaMapSingleton
          (loadDict a s).dictMapSingleton w) := rfl

/-! ### Claim theorems -/

/-- C1: for every input string, `LookUp` trims the word exactly once; if the
trimmed word is a key of the lemma map it is replaced by the mapped base
word, used as-is without re-trimming, and otherwise the trimmed word is
kept; the resulting word is looked up in the dictionary map, returning the
matching entry when present and the absent result when not. The right hand
side uses `lookUpSpec`, the algorithm as worded by the specification, over
the loaded singleton maps. -/
theorem lookUp_follows_spec (a : Assets) (s : ProcState) (w : String) :
    LookUp a s w =
      (loadDict a s,
        lookUpSpec (loadDict a s).lemmaMapSingleton
          (loadDict a s).dictMapSingleton w) :=
  lookUp_unfold a s w

/-- C2: when the trimmed word is a dictionary key and also a lemma-map key
mapped to some base word, `LookUp` resolves through the lemma mapping: the
result is the dictionary lookup of the mapped base word, never the entry
stored directly under the literal word. -/
theorem lookUp_lemma_first (a : Assets) (s : ProcState) (w b : String)
    (hdict : (mapFind (loadDict a s).dictMapSingleton (trimSpace w)).isSome = true)
    (hlem : mapFind (loadDict a s).lemmaMapSingleton (trimSpace w) = some b) :
    (LookUp a s w).2 = mapFind (loadDict a s).dictMapSingleton b := by
  rw [lookUp_unfold]
  unfold lookUpSpec
  simp only [hlem]

theorem lookUp_lemma_first_witness :
    ((mapFind (loadDict assetsMain procStart).dictMapSingleton
        (trimSpace "cat")).isSome = true ∧
      mapFind (loadDict assetsMain procStart).lemmaMapSingleton
        (trimSpace "cat") = some "dog") ∧
    (LookUp assetsMain procStart "cat").2 =
      mapFind (loadDict assetsMain procStart).dictMapSingleton "dog" :=
  ⟨⟨by decide, by decide⟩,
   lookUp_lemma_first assetsMain procStart "cat" "dog" (by decide) (by decide)⟩

/-- C3: `parseDict` contributes entries for exactly the kept records —
13 fields, non-empty trimmed word, not the header row. A rejected record
contributes nothing at all, wherever it occurs; a kept record is inserted
under both its exact trimmed word and the lowercase form of that word. -/
theorem parseDict_record_contributions :
    (∀ (l₁ l₂ : List (List String)) (r : List String), ¬keptRecord r →
      parseDict (l₁ ++ r :: l₂) = parseDict (l₁ ++ l₂)) ∧
    (∀ (l : List (List String)) (r : List String), keptRecord r →
      parseDict (l ++ [r]) =
        mapInsert
          (mapInsert (parseDict l) (trimSpace (r.getD 0 "")) (recordItem r))
          (toLowerStr (trimSpace (r.getD 0 ""))) (recordItem r)) := by
  constructor
  · intro l₁ l₂ r h
    unfold parseDict
    rw [List.foldl_append, List.foldl_cons, parseDictStep_not_kept _ r h,
      ← List.foldl_append]
  · intro l r h
    unfold parseDict
    rw [List.foldl_append, List.foldl_cons, List.foldl_nil,
      parseDictStep_kept _ r h]

theorem parseDict_record_contributions_witness :
    (¬keptRecord rowShort ∧
      parseDict [rowCat, rowShort] = parseDict [rowCat]) ∧
    (¬keptRecord rowHeader ∧
      parseDict [rowCat, rowHeader] = parseDict [rowCat]) ∧
    (keptRecord rowDog ∧
      parseDict [rowCat, rowDog] =
        mapInsert
          (mapInsert (parseDict [rowCat]) (trimSpace (rowDog.getD 0 ""))
            (recordItem rowDog))
          (toLowerStr (trimSpace (rowDog.getD 0 ""))) (recordItem rowDog)) :=
  ⟨⟨by decide, parseDict_record_contributions.1 [rowCat] [] rowShort (by decide)⟩,
   ⟨by decide, parseDict_record_contributions.1 [rowCat] [] rowHeader (by decide)⟩,
   ⟨by decide, parseDict_record_contributions.2 [rowCat] rowDog (by decide)⟩⟩

/-- C4: `parseLemma` processes input line by line. A comment line, a line
without exactly two separator parts, and a line with an empty canonical word
contribute nothing; on a good line, every comma token of the right part that
is non-empty after trimming ends up (also overriding earlier lines) mapped
to the canonical word; and in any resulting map every key and every value is
non-empty. -/
theorem parseLemma_line_behavior :
    (∀ (m : List (String × String)) (line : String),
      hasPrefixGo (trimSpace line) ";" = true → parseLemmaLine m line = m) ∧
    (∀ (m : List (String × String)) (line : String),
      (lineParts line).length ≠ 2 → parseLemmaLine m line = m) ∧
    (∀ (m : List (String × String)) (line : String),
      lineOriginalWord line = "" → parseLemmaLine m line = m) ∧
    (∀ (ls : List String) (line k : String), goodLine line → k ≠ "" →
      (∃ t ∈ lineLemmaTokens line, trimSpace t = k) →
      mapFind (parseLemma (ls ++ [line])) k = some (lineOriginalWord line)) ∧
    (∀ (lines : List String) (k v : String),
      mapFind (parseLemma lines) k = some v → k ≠ "" ∧ v ≠ "") := by
  refine ⟨?c1, ?c2, ?c3, ?c4, ?c5⟩
  case c1 =>
    intro m line h
    unfold parseLemmaLine
    rw [if_pos h]
  case c2 =>
    intro m line hlen
    unfold parseLemmaLine
    split_ifs <;> rfl
  case c3 =>
    intro m line hword
    unfold parseLemmaLine
    split_ifs <;> rfl
  case c4 =>
    intro ls line k hg hne hmem
    have hsplit : parseLemma (ls ++ [line]) = parseLemmaLine (parseLemma ls) line := by
      unfold parseLemma
      rw [List.foldl_append]
      rfl
    rw [hsplit, parseLemmaLine_good _ line hg]
    exact mapFind_foldl_tokenStep_mem _ _ _ _ hne hmem
  case c5 =>
    intro lines k v h
    have hinv : lemmaInv (parseLemma lines) := by
      unfold parseLemma
      exact lemmaInv_foldl_lines lines [] lemmaInv_nil
    exact hinv k v h

theorem parseLemma_line_behavior_witness :
    parseLemmaLine [] "; a comment" = [] ∧
    parseLemmaLine [] "no separator here" = [] ∧
    parseLemmaLine [] "/ -> run" = [] ∧
    mapFind (parseLemma ["runs -> running", "run -> runs,running"]) "running" =
      some (lineOriginalWord "run -> runs,running") ∧
    ("running" ≠ "" ∧ "run" ≠ "") :=
  ⟨parseLemma_line_behavior.1 [] "; a comment" (by decide),
   parseLemma_line_behavior.2.1 [] "no separator here" (by decide),
   parseLemma_line_behavior.2.2.1 [] "/ -> run" (by decide),
   parseLemma_line_behavior.2.2.2.1 ["runs -> running"] "run -> runs,running"
     "running" (by decide) (by decide) (by decide),
   parseLemma_line_behavior.2.2.2.2 ["run -> runs,running"] "running" "run"
     (by decide)⟩

/-- C5 counterexample: the claim fails as stated. Take the valid record for
cat followed by the distinct valid record for Cat (equal after
lowercasing): after loading, the exact-case key of the earlier record (cat,
which is also the shared lowercase key) maps to the later record, not to
the earlier record's own data. -/
theorem parseDict_case_collision_counterexample :
    keptRecord rowCat ∧ keptRecord rowCatMixed ∧
    trimSpace (rowCat.getD 0 "") ≠ trimSpace (rowCatMixed.getD 0 "") ∧
    toLowerStr (trimSpace (rowCat.getD 0 "")) =
      toLowerStr (trimSpace (rowCatMixed.getD 0 "")) ∧
    mapFind (parseDict [rowCat, rowCatMixed]) (trimSpace (rowCat.getD 0 "")) =
      some (recordItem rowCatMixed) ∧
    recordItem rowCatMixed ≠ recordItem rowCat := by decide

/-- C5 amended: for two distinct valid records equal after lowercasing,
loaded as the only two records of the source, the shared lowercase key and
the later record's exact-case key map to the later record; the earlier
record's exact-case key retains its own data provided its word is not
itself entirely lowercase (when it is, that key is the shared lowercase key
and is overwritten by the later record). -/
theorem parseDict_case_collision (r₁ r₂ : List String)
    (h1 : keptRecord r₁) (h2 : keptRecord r₂)
    (hne : trimSpace (r₁.getD 0 "") ≠ trimSpace (r₂.getD 0 ""))
    (hlow : toLowerStr (trimSpace (r₁.getD 0 "")) =
      toLowerStr (trimSpace (r₂.getD 0 "")))
    (hcase : trimSpace (r₁.getD 0 "") ≠ toLowerStr (trimSpace (r₁.getD 0 ""))) :
    mapFind (parseDict [r₁, r₂]) (toLowerStr (trimSpace (r₁.getD 0 ""))) =
      some (recordItem r₂) ∧
    mapFind (parseDict [r₁, r₂]) (trimSpace (r₁.getD 0 "")) =
      some (recordItem r₁) ∧
    mapFind (parseDict [r₁, r₂]) (trimSpace (r₂.getD 0 "")) =
      some (recordItem r₂) := by
  have hmap : parseDict [r₁, r₂] =
      mapInsert
        (mapInsert
          (mapInsert (mapInsert [] (trimSpace (r₁.getD 0 "")) (recordItem r₁))
            (toLowerStr (trimSpace (r₁.getD 0 ""))) (recordItem r₁))
          (trimSpace (r₂.getD 0 "")) (recordItem r₂))
        (toLowerStr (trimSpace (r₂.getD 0 ""))) (recordItem r₂) := by
    show parseDictStep (parseDictStep [] r₁) r₂ = _
    rw [parseDictStep_kept [] r₁ h1, parseDictStep_kept _ r₂ h2]
  refine ⟨?g1, ?g2, ?g3⟩
  case g1 =>
    rw [hmap, mapFind_insert, if_pos hlow]
  case g2 =>
    rw [hmap, mapFind_insert, if_neg (fun he => hcase (he.trans hlow.symm)),
      mapFind_insert, if_neg hne, mapFind_insert, if_neg hcase,
      mapFind_insert, if_pos rfl]
  case g3 =>
    by_cases hc : trimSpace (r₂.getD 0 "") = toLowerStr (trimSpace (r₂.getD 0 ""))
    · rw [hmap, mapFind_insert, if_pos hc]
    · rw [hmap, mapFind_insert, if_neg hc, mapFind_insert, if_pos rfl]

theorem parseDict_case_collision_witness :
    (keptRecord rowCatUpper ∧ keptRecord rowCatMixed ∧
      trimSpace (rowCatUpper.getD 0 "") ≠ trimSpace (rowCatMixed.getD 0 "") ∧
      toLowerStr (trimSpace (rowCatUpper.getD 0 "")) =
        toLowerStr (trimSpace (rowCatMixed.getD 0 "")) ∧
      trimSpace (rowCatUpper.getD 0 "") ≠
        toLowerStr (trimSpace (rowCatUpper.getD 0 ""))) ∧
    (mapFind (parseDict [rowCatUpper, rowCatMixed])
        (toLowerStr (trimSpace (rowCatUpper.getD 0 ""))) =
      some (recordItem rowCatMixed) ∧
    mapFind (parseDict [rowCatUpper, rowCatMixed])
        (trimSpace (rowCatUpper.getD 0 "")) = some (recordItem rowCatUpper) ∧
    mapFind (parseDict [rowCatUpper, rowCatMixed])
        (trimSpace (rowCatMixed.getD 0 "")) = some (recordItem rowCatMixed)) :=
  ⟨⟨by decide, by decide, by decide, by decide, by decide⟩,
   parseDict_case_collision rowCatUpper rowCatMixed (by decide) (by decide)
     (by decide) (by decide) (by decide)⟩

/-- C6: the stored entry of a kept record decodes escaped newlines in the
definition and translation fields only, and carries every other field
verbatim from the source row: looked up under its exact trimmed word, the
stored entry has the trimmed first field as word, fields two and three
passed through `removeBr`, and the remaining ten fields unchanged. -/
theorem parseDict_field_treatment (l : List (List String)) (r : List String)
    (h : keptRecord r) :
    mapFind (parseDict (l ++ [r])) (trimSpace (r.getD 0 "")) =
      some (recordItem r) ∧
    (recordItem r).Word = trimSpace (r.getD 0 "") ∧
    (recordItem r).Phonetic = r.getD 1 "" ∧
    (recordItem r).Definition = removeBr (r.getD 2 "") ∧
    (recordItem r).Translation = removeBr (r.getD 3 "") ∧
    (recordItem r).Pos = r.getD 4 "" ∧
    (recordItem r).Collins = r.getD 5 "" ∧
    (recordItem r).Oxford = r.getD 6 "" ∧
    (recordItem r).Tag = r.getD 7 "" ∧
    (recordItem r).Bnc = r.getD 8 "" ∧
    (recordItem r).Frq = r.getD 9 "" ∧
    (recordItem r).Exchange = r.getD 10 "" ∧
    (recordItem r).Detail = r.getD 11 "" ∧
    (recordItem r).Audio = r.getD 12 "" := by
  have hmap : parseDict (l ++ [r]) =
      mapInsert (mapInsert (parseDict l) (trimSpace (r.getD 0 "")) (recordItem r))
        (toLowerStr (trimSpace (r.getD 0 ""))) (recordItem r) := by
    unfold parseDict
    rw [List.foldl_append, List.foldl_cons, List.foldl_nil,
      parseDictStep_kept _ r h]
  refine ⟨?find, rfl, rfl, rfl, rfl, rfl, rfl, rfl, rfl, rfl, rfl, rfl, rfl, rfl⟩
  rw [hmap, mapFind_insert]
  by_cases hc : trimSpace (r.getD 0 "") = toLowerStr (trimSpace (r.getD 0 ""))
  · rw [if_pos hc]
  · rw [if_neg hc, mapFind_insert, if_pos rfl]

theorem parseDict_field_treatment_witness :
    keptRecord rowDog ∧
    mapFind (parseDict [rowDog]) (trimSpace (rowDog.getD 0 "")) =
      some (recordItem rowDog) ∧
    removeBr (rowDog.getD 2 "") = "a loyal\nanimal" ∧
    (recordItem rowDog).Definition = "a loyal\nanimal" ∧
    (recordItem rowDog).Phonetic = rowDog.getD 1 "" :=
  ⟨by decide, (parseDict_field_treatment [] rowDog (by decide)).1,
   by decide, by decide, by decide⟩

/-- C7: loading is idempotent. Iterating `loadDict` any positive number of
times from any state equals a single invocation, and once both singleton
maps are non-empty a further invocation changes nothing. -/
theorem loadDict_idempotent :
    (∀ (a : Assets) (s : ProcState) (n : Nat),
      (loadDict a)^[n + 1] s = loadDict a s) ∧
    (∀ (a : Assets) (s : ProcState), ¬s.dictMapSingleton.isEmpty = true →
      ¬s.lemmaMapSingleton.isEmpty = true → loadDict a s = s) := by
  constructor
  · intro a s n
    induction n with
    | zero => rw [Function.iterate_one]
    | succ n ih => rw [Function.iterate_succ_apply', ih, loadDict_loadDict]
  · exact loadDict_of_nonempty

theorem loadDict_idempotent_witness :
    (loadDict assetsMain)^[3] procStart = loadDict assetsMain procStart ∧
    loadDict assetsMain (loadDict assetsMain procStart) =
      loadDict assetsMain procStart :=
  ⟨loadDict_idempotent.1 assetsMain procStart 2,
   loadDict_idempotent.2 assetsMain (loadDict assetsMain procStart)
     (by decide) (by decide)⟩

/-- C8: a found `LookUp` result is an independent snapshot. In the explicit
pointer model, the returned pointer addresses a fresh cell holding a copy of
the stored entry; overwriting that cell with any value leaves the package
state untouched, and a repeated lookup of the same word again yields the
original field values. -/
theorem lookUp_snapshot (a : Assets) (s : ProcState) (h : Heap) (w : String)
    (s' : ProcState) (h' : Heap) (p : Nat)
    (hrun : lookUpRef a s h w = (s', h', some p)) :
    s' = loadDict a s ∧
    ∃ it, Heap.read h' p = some it ∧ (LookUp a s w).2 = some it ∧
      ∀ v, ∃ q h'', lookUpRef a s' (Heap.write h' p v) w = (s', h'', some q) ∧
        Heap.read h'' q = some it := by
  unfold lookUpRef at hrun
  cases hfind : mapFind (loadDict a s).dictMapSingleton
      (resolveWord (loadDict a s) w) with
  | none =>
    rw [hfind] at hrun
    simp at hrun
  | some it =>
    rw [hfind] at hrun
    simp only [Prod.mk.injEq] at hrun
    obtain ⟨hs, hh, hp⟩ := hrun
    subst hs
    refine ⟨rfl, it, ?hread, ?hlook, ?hmut⟩
    case hread =>
      have hp2 : (h.alloc it).2 = p := by injection hp
      rw [← hh, ← hp2]
      exact List.getElem?_concat_length h.cells it
    case hlook => exact hfind
    case hmut =>
      intro v
      refine ⟨((Heap.write h' p v).alloc it).2, ((Heap.write h' p v).alloc it).1,
        ?heq, ?hr2⟩
      case heq =>
        unfold lookUpRef
        rw [loadDict_loadDict, hfind]
      case hr2 =>
        exact List.getElem?_concat_length (Heap.write h' p v).cells it

theorem lookUp_snapshot_witness :
    lookUpRef assetsMain procStart ⟨[]⟩ "cat" =
      (loadDict assetsMain procStart, ⟨[recordItem rowDog]⟩, some 0) ∧
    (loadDict assetsMain procStart = loadDict assetsMain procStart ∧
      ∃ it, Heap.read ⟨[recordItem rowDog]⟩ 0 = some it ∧
        (LookUp assetsMain procStart "cat").2 = some it ∧
        ∀ v, ∃ q h'',
          lookUpRef assetsMain (loadDict assetsMain procStart)
              (Heap.write ⟨[recordItem rowDog]⟩ 0 v) "cat" =
            (loadDict assetsMain procStart, h'', some q) ∧
          Heap.read h'' q = some it) :=
  ⟨by decide,
   lookUp_snapshot assetsMain procStart ⟨[]⟩ "cat"
     (loadDict assetsMain procStart) ⟨[recordItem rowDog]⟩ 0 (by decide)⟩

/-- C9: when the resolved word (the trimmed query after lemma substitution)
is not a dictionary key, `LookUp` on a loaded state returns the absent
result, and both singleton maps are left unchanged: the whole call is the
pure pair of the unchanged state and `none`, with no fault. -/
theorem lookUp_absent_returns_none (a : Assets) (s : ProcState) (w : String)
    (hd : ¬s.dictMapSingleton.isEmpty = true)
    (hl : ¬s.lemmaMapSingleton.isEmpty = true)
    (habs : mapFind s.dictMapSingleton (resolveWord s w) = none) :
    LookUp a s w = (s, none) := by
  have hload : loadDict a s = s := loadDict_of_nonempty a s hd hl
  have hbody : LookUp a s w =
      (loadDict a s, mapFind (loadDict a s).dictMapSingleton
        (resolveWord (loadDict a s) w)) := rfl
  rw [hbody, hload, habs]

theorem lookUp_absent_returns_none_witness :
    (¬(loadDict assetsMain procStart).dictMapSingleton.isEmpty = true ∧
      ¬(loadDict assetsMain procStart).lemmaMapSingleton.isEmpty = true ∧
      mapFind (loadDict assetsMain procStart).dictMapSingleton
        (resolveWord (loadDict assetsMain procStart) "zebra") = none) ∧
    LookUp assetsMain (loadDict assetsMain procStart) "zebra" =
      (loadDict assetsMain procStart, none) :=
  ⟨⟨by decide, by decide, by decide⟩,
   lookUp_absent_returns_none assetsMain (loadDict assetsMain procStart)
     "zebra" (by decide) (by decide) (by decide)⟩

/-- C10: the key set of the map built by `parseDict` is closed under
lowercasing: whenever a key is bound, the lowercase form of that key is
bound as well. -/
theorem parseDict_keys_lowercase_closed (rs : List (List String)) (k : String)
    (h : (mapFind (parseDict rs) k).isSome = true) :
    (mapFind (parseDict rs) (toLowerStr k)).isSome = true := by
  have hc : lowerClosed (parseDict rs) := by
    unfold parseDict
    exact lowerClosed_foldl rs [] lowerClosed_nil
  exact hc k h

theorem parseDict_keys_lowercase_closed_witness :
    (mapFind (parseDict [rowCatUpper]) "CAT").isSome = true ∧
    (mapFind (parseDict [rowCatUpper]) (toLowerStr "CAT")).isSome = true :=
  ⟨by decide, parseDict_keys_lowercase_closed [rowCatUpper] "CAT" (by decide)⟩

end Wasmecdict
